import Mathlib

/-!
A verification development for the fuzzy-pickles Rust parser
(src/src/lib.rs).  The parser works over a token vector produced by a
greedy tokenizer; multi-character tokens can be split on demand by the
parser (`split`), parse points carry a `sub_offset` into a split token,
and a small combinator kernel drives the recursive-descent grammar.

The definitions below are shallow embeddings of the corresponding Rust
items; each definition's doc comment names the source location it
mirrors.  The tokenizer module (`src/tokenizer.rs`), the `expression`
module, the `peresil` combinator crate and the `Decompose` derive are
not part of the provided sources; definitions that stand in for them
are marked `Modelled from the spec:` and follow the specification's
wording for those components.
-/

namespace FuzzyPickles

/-- A half-open byte range `[start, end)` into the original input
(src/src/lib.rs line 423: `pub type Extent = (usize, usize)`). -/
abbrev Extent := Nat × Nat

/-- Modelled from the spec: the tag of a token produced by the missing
tokenizer module.  One constructor per `Token` variant referenced by
src/src/lib.rs (the `shims!` table at lines 2809-2909, the `split`
function, and the whitespace/comment partition).  The Rust variants
`Extern` and `Unsafe` are rendered `kwExternTok` / `kwUnsafeTok`.
Numeric literals additionally carry integral/fractional/exponent/suffix
sub-extents (spec section 4.B); no claim inspects them, so the `number`
constructor elides that payload. -/
inductive TokenKind where
  | ident
  | lifetime
  | number
  | character
  | stringLiteral
  | stringRaw
  | byte
  | byteString
  | byteStringRaw
  | kwAs
  | kwBox
  | kwBreak
  | kwConst
  | kwContinue
  | kwCrate
  | kwDefault
  | kwElse
  | kwEnum
  | kwExternTok
  | kwFn
  | kwFor
  | kwIf
  | kwImpl
  | kwIn
  | kwLet
  | kwLoop
  | kwMatch
  | kwMod
  | kwMove
  | kwMut
  | kwPub
  | kwRef
  | kwReturn
  | kwSelfIdent
  | kwStatic
  | kwStruct
  | kwTrait
  | kwType
  | kwUnion
  | kwUnsafeTok
  | kwUse
  | kwWhere
  | kwWhile
  | leftAngle
  | leftCurly
  | leftParen
  | leftSquare
  | rightAngle
  | rightCurly
  | rightParen
  | rightSquare
  | ampersand
  | ampersandEquals
  | asterisk
  | atSign
  | backslash
  | bang
  | caret
  | caretEquals
  | colon
  | comma
  | divideEquals
  | dollar
  | doubleAmpersand
  | doubleColon
  | doubleEquals
  | doubleLeftAngle
  | doublePeriod
  | doublePipe
  | doubleRightAngle
  | equals
  | greaterThanOrEquals
  | hash
  | lessThanOrEquals
  | minus
  | minusEquals
  | notEqual
  | percent
  | percentEquals
  | period
  | pipe
  | pipeEquals
  | plus
  | plusEquals
  | questionMark
  | semicolon
  | shiftLeftEquals
  | shiftRightEquals
  | slash
  | thickArrow
  | thinArrow
  | tilde
  | timesEquals
  | triplePeriod
  | whitespace
  | commentLine
  | commentBlock
  | docCommentLine
  | docCommentBlock
  | endOfFile
deriving DecidableEq, Repr

/-- Modelled from the spec: a token of the missing tokenizer module.
"Each token owns its extent"; the tag is the variant. -/
structure Token where
  kind : TokenKind
  extent : Extent
deriving DecidableEq, Repr

/-- `Token::is_end_of_file` (tokenizer module; used by
`parse_rust_file` at src/src/lib.rs line 392). -/
def Token.isEndOfFile (t : Token) : Bool :=
  t.kind = TokenKind.endOfFile

/-- `Token::into_ident` (tokenizer module): the extent when the token
is an identifier. -/
def Token.into_ident (t : Token) : Option Extent :=
  if t.kind = TokenKind.ident then some t.extent else none

/-- `Token::into_default` (tokenizer module). -/
def Token.into_default (t : Token) : Option Extent :=
  if t.kind = TokenKind.kwDefault then some t.extent else none

/-- `Token::into_self_ident` (tokenizer module). -/
def Token.into_self_ident (t : Token) : Option Extent :=
  if t.kind = TokenKind.kwSelfIdent then some t.extent else none

/-- `Token::into_union` (tokenizer module). -/
def Token.into_union (t : Token) : Option Extent :=
  if t.kind = TokenKind.kwUnion then some t.extent else none

/-- `Token::into_right_angle` (tokenizer module). -/
def Token.into_right_angle (t : Token) : Option Extent :=
  if t.kind = TokenKind.rightAngle then some t.extent else none

/-- `Token::into_equals` (tokenizer module). -/
def Token.into_equals (t : Token) : Option Extent :=
  if t.kind = TokenKind.equals then some t.extent else none

/-- The token splitter, `fn split(token: Token, n: u8)`
(src/src/lib.rs lines 2963-3009).  Seven `(token, n)` combinations
decompose into a pair of tokens; everything else returns `None`. -/
def split (t : Token) (n : Nat) : Option (Token × Token) :=
  match t.kind, n with
  | TokenKind.doubleLeftAngle, 0 =>
    let (s, e) := t.extent
    some (⟨TokenKind.leftAngle, (s, s + 1)⟩, ⟨TokenKind.leftAngle, (s + 1, e)⟩)
  | TokenKind.doubleRightAngle, 0 =>
    let (s, e) := t.extent
    some (⟨TokenKind.rightAngle, (s, s + 1)⟩, ⟨TokenKind.rightAngle, (s + 1, e)⟩)
  | TokenKind.shiftRightEquals, 0 =>
    let (s, e) := t.extent
    some (⟨TokenKind.rightAngle, (s, s + 1)⟩, ⟨TokenKind.greaterThanOrEquals, (s + 1, e)⟩)
  | TokenKind.shiftRightEquals, 1 =>
    let (s, e) := t.extent
    some (⟨TokenKind.rightAngle, (s + 1, s + 2)⟩, ⟨TokenKind.equals, (s + 2, e)⟩)
  | TokenKind.greaterThanOrEquals, 0 =>
    let (s, e) := t.extent
    some (⟨TokenKind.rightAngle, (s, s + 1)⟩, ⟨TokenKind.equals, (s + 1, e)⟩)
  | TokenKind.doublePipe, 0 =>
    let (s, e) := t.extent
    some (⟨TokenKind.pipe, (s, s + 1)⟩, ⟨TokenKind.pipe, (s + 1, e)⟩)
  | TokenKind.doubleAmpersand, 0 =>
    let (s, e) := t.extent
    some (⟨TokenKind.ampersand, (s, s + 1)⟩, ⟨TokenKind.ampersand, (s + 1, e)⟩)
  | _, _ => none

/-- The splitter's table from the specification (section 4.C): the
seven `(token, n)` combinations the spec lists as splittable.  Stated
independently of `split` so that the two can be compared. -/
def splitListed (t : Token) (n : Nat) : Bool :=
  match t.kind, n with
  | TokenKind.doubleLeftAngle, 0 => true
  | TokenKind.doubleRightAngle, 0 => true
  | TokenKind.shiftRightEquals, 0 => true
  | TokenKind.shiftRightEquals, 1 => true
  | TokenKind.greaterThanOrEquals, 0 => true
  | TokenKind.doublePipe, 0 => true
  | TokenKind.doubleAmpersand, 0 => true
  | _, _ => false

/-- Byte membership in a half-open extent. -/
def inExtent (x : Nat) (ext : Extent) : Bool :=
  decide (ext.1 ≤ x ∧ x < ext.2)

/-- The widths the tokenizer gives the splittable tokens: two bytes for
the two-character symbols, three for `>>=`.  Any other token is
unconstrained. -/
def splitWidthOk (t : Token) : Bool :=
  match t.kind with
  | TokenKind.doubleLeftAngle => t.extent.2 = t.extent.1 + 2
  | TokenKind.doubleRightAngle => t.extent.2 = t.extent.1 + 2
  | TokenKind.greaterThanOrEquals => t.extent.2 = t.extent.1 + 2
  | TokenKind.doublePipe => t.extent.2 = t.extent.1 + 2
  | TokenKind.doubleAmpersand => t.extent.2 = t.extent.1 + 2
  | TokenKind.shiftRightEquals => t.extent.2 = t.extent.1 + 3
  | _ => true

/-- C1: the splitter decomposes exactly the seven listed `(token, n)`
combinations — `<<`@0, `>>`@0, `>>=`@0, `>>=`@1, `>=`@0, `||`@0, `&&`@0
— into the listed pairs of adjacent tokens, and fails (returns `none`)
for every other `(token, n)` combination. -/
theorem c1_split_table :
    (∀ s e : Nat,
      split ⟨TokenKind.doubleLeftAngle, (s, e)⟩ 0 =
        some (⟨TokenKind.leftAngle, (s, s + 1)⟩, ⟨TokenKind.leftAngle, (s + 1, e)⟩) ∧
      split ⟨TokenKind.doubleRightAngle, (s, e)⟩ 0 =
        some (⟨TokenKind.rightAngle, (s, s + 1)⟩, ⟨TokenKind.rightAngle, (s + 1, e)⟩) ∧
      split ⟨TokenKind.shiftRightEquals, (s, e)⟩ 0 =
        some (⟨TokenKind.rightAngle, (s, s + 1)⟩, ⟨TokenKind.greaterThanOrEquals, (s + 1, e)⟩) ∧
      split ⟨TokenKind.shiftRightEquals, (s, e)⟩ 1 =
        some (⟨TokenKind.rightAngle, (s + 1, s + 2)⟩, ⟨TokenKind.equals, (s + 2, e)⟩) ∧
      split ⟨TokenKind.greaterThanOrEquals, (s, e)⟩ 0 =
        some (⟨TokenKind.rightAngle, (s, s + 1)⟩, ⟨TokenKind.equals, (s + 1, e)⟩) ∧
      split ⟨TokenKind.doublePipe, (s, e)⟩ 0 =
        some (⟨TokenKind.pipe, (s, s + 1)⟩, ⟨TokenKind.pipe, (s + 1, e)⟩) ∧
      split ⟨TokenKind.doubleAmpersand, (s, e)⟩ 0 =
        some (⟨TokenKind.ampersand, (s, s + 1)⟩, ⟨TokenKind.ampersand, (s + 1, e)⟩)) ∧
    (∀ (t : Token) (n : Nat), (split t n).isSome = splitListed t n) := by
  constructor
  · intro s e
    exact ⟨rfl, rfl, rfl, rfl, rfl, rfl, rfl⟩
  · rintro ⟨k, s, e⟩ n
    rcases n with _ | _ | n <;> cases k <;> rfl

/-- C2 is false as stated: for the handled combination `(>>=, 1)` the
union of the two result extents is `[s+1, e)`, not the token's whole
extent `[s, e)` — the first byte (already consumed by the `n = 0`
split) is missing.  Concretely, with extent `(0, 3)` the byte `0` lies
in the token's extent but in neither part's extent. -/
theorem c2_union_counterexample :
    split ⟨TokenKind.shiftRightEquals, (0, 3)⟩ 1 =
      some (⟨TokenKind.rightAngle, (1, 2)⟩, ⟨TokenKind.equals, (2, 3)⟩) ∧
    inExtent 0 (0, 3) = true ∧
    inExtent 0 (1, 2) = false ∧
    inExtent 0 (2, 3) = false := by
  decide

/-- C2, amended: for every `(token, n)` handled by the splitter (with
the token extents the tokenizer produces), the two result extents are
adjacent, each nonempty, the first lies strictly to the left of the
second, the second ends where the token's extent ends, and the first
begins at `token.start + n` — so their union is the token's extent with
its first `n` bytes removed; for `n = 0` it is exactly the token's
extent. -/
theorem c2_split_extent_amended (t : Token) (n : Nat) (a b : Token) (x : Nat)
    (hw : splitWidthOk t = true) (h : split t n = some (a, b)) :
    a.extent.2 = b.extent.1 ∧
    a.extent.1 < a.extent.2 ∧
    b.extent.1 < b.extent.2 ∧
    a.extent.1 = t.extent.1 + n ∧
    b.extent.2 = t.extent.2 ∧
    inExtent x (t.extent.1 + n, t.extent.2) =
      (inExtent x a.extent || inExtent x b.extent) := by
  obtain ⟨k, s, e⟩ := t
  cases k <;>
  first
  | exact Option.noConfusion h
  | (rcases n with _ | _ | n
     all_goals first
     | exact Option.noConfusion h
     | (simp only [split, Option.some.injEq, Prod.mk.injEq] at h
        obtain ⟨rfl, rfl⟩ := h
        simp only [splitWidthOk, decide_eq_true_eq] at hw
        subst hw
        refine ⟨rfl, ?_, ?_, ?_, rfl, ?_⟩ <;> dsimp only [inExtent] <;>
          first
          | omega
          | (rw [Bool.eq_iff_iff]
             simp only [decide_eq_true_eq, Bool.or_eq_true]
             omega)))

/-- The parser's expectation codes, `pub enum Error`
(src/src/lib.rs lines 178-277). -/
inductive Error where
  | ExpectedAmpersand
  | ExpectedAmpersandEquals
  | ExpectedAs
  | ExpectedAsterisk
  | ExpectedAt
  | ExpectedBackslash
  | ExpectedBang
  | ExpectedBox
  | ExpectedBreak
  | ExpectedByte
  | ExpectedByteString
  | ExpectedByteStringRaw
  | ExpectedCaret
  | ExpectedCaretEquals
  | ExpectedCharacter
  | ExpectedColon
  | ExpectedComma
  | ExpectedConst
  | ExpectedContinue
  | ExpectedCrate
  | ExpectedDefault
  | ExpectedDivideEquals
  | ExpectedDollar
  | ExpectedDoubleAmpersand
  | ExpectedDoubleColon
  | ExpectedDoubleEquals
  | ExpectedDoubleLeftAngle
  | ExpectedDoublePeriod
  | ExpectedDoublePipe
  | ExpectedDoubleRightAngle
  | ExpectedElse
  | ExpectedEnum
  | ExpectedEquals
  | ExpectedExtern
  | ExpectedFn
  | ExpectedFor
  | ExpectedGreaterThanOrEquals
  | ExpectedHash
  | ExpectedIdent
  | ExpectedIf
  | ExpectedImpl
  | ExpectedIn
  | ExpectedLeftAngle
  | ExpectedLeftCurly
  | ExpectedLeftParen
  | ExpectedLeftSquare
  | ExpectedLessThanOrEquals
  | ExpectedLet
  | ExpectedLifetime
  | ExpectedLoop
  | ExpectedMatch
  | ExpectedMinus
  | ExpectedMinusEquals
  | ExpectedMod
  | ExpectedMove
  | ExpectedMut
  | ExpectedNotEqual
  | ExpectedNumber
  | ExpectedPercent
  | ExpectedPercentEquals
  | ExpectedPeriod
  | ExpectedPipe
  | ExpectedPipeEquals
  | ExpectedPlus
  | ExpectedPlusEquals
  | ExpectedPub
  | ExpectedQuestionMark
  | ExpectedRef
  | ExpectedReturn
  | ExpectedRightAngle
  | ExpectedRightCurly
  | ExpectedRightParen
  | ExpectedRightSquare
  | ExpectedSelfIdent
  | ExpectedSemicolon
  | ExpectedShiftLeftEquals
  | ExpectedShiftRightEquals
  | ExpectedSlash
  | ExpectedStatic
  | ExpectedString
  | ExpectedStringRaw
  | ExpectedStruct
  | ExpectedThickArrow
  | ExpectedThinArrow
  | ExpectedTilde
  | ExpectedTimesEquals
  | ExpectedTrait
  | ExpectedTriplePeriod
  | ExpectedType
  | ExpectedUnion
  | ExpectedUnsafe
  | ExpectedUse
  | ExpectedWhere
  | ExpectedWhile
  | ExpectedExpression
  | BlockNotAllowedHere
deriving DecidableEq, Repr

/-- A parse point, `pub struct TokenPoint` (src/src/lib.rs lines
49-53): an index into the token vector, an optional sub-offset into a
split token, and the remaining token slice (`s = tokens[offset..]`).
The Rust `sub_offset: Option<u8>` is modelled with `Option Nat`; the
only values the parser ever stores are `0` and `1`. -/
structure Point where
  offset : Nat
  subOffset : Option Nat
  s : List Token
deriving DecidableEq, Repr

/-- `TokenPoint::new` (src/src/lib.rs lines 65-71). -/
def Point.new (toks : List Token) : Point :=
  { offset := 0, subOffset := none, s := toks }

/-- `TokenPoint::advance_by` (src/src/lib.rs lines 74-80): move
forward `k` whole tokens and clear the sub-offset.  (Rust slicing
`&self.s[k..]` panics past the end; `List.drop` truncates instead —
callers below never advance past the end.) -/
def Point.advanceBy (pt : Point) (k : Nat) : Point :=
  { offset := pt.offset + k, subOffset := none, s := pt.s.drop k }

/-- `peresil::Status`: either a parsed value or a recoverable error. -/
inductive Status (T : Type) where
  | success (v : T)
  | failure (e : Error)
deriving DecidableEq, Repr

/-- `peresil::Progress`: a result point paired with a status. -/
structure Progress (T : Type) where
  point : Point
  status : Status T
deriving DecidableEq, Repr

/-- `Progress::success`. -/
def Progress.success {T : Type} (pt : Point) (v : T) : Progress T :=
  ⟨pt, Status.success v⟩

/-- `Progress::failure`. -/
def Progress.failure {T : Type} (pt : Point) (e : Error) : Progress T :=
  ⟨pt, Status.failure e⟩

/-- The token the matcher actually tests at a point: the whole token
when no sub-offset is set, otherwise the suffix of the split at the
stored sub-offset (src/src/lib.rs lines 2921-2926).  `none` models the
`expect("Cannot resume a split token")` panic. -/
def viewedToken (pt : Point) (originalToken : Token) : Option Token :=
  match pt.subOffset with
  | some so => (split originalToken so).map Prod.snd
  | none => some originalToken

/-- The sub-offset the matcher consults the splitter with after a
failed whole-token match: `pt.sub_offset.map(|x| x + 1).unwrap_or(0)`
(src/src/lib.rs line 2935). -/
def nextSubOffset (pt : Point) : Nat :=
  match pt.subOffset with
  | some x => x + 1
  | none => 0

/-- The token matcher, `fn token(token_convert, error)`
(src/src/lib.rs lines 2911-2961).  The outer `Option` distinguishes
the `Cannot resume a split token` panic (`none`) from a normal
`Progress` result. -/
def token {T : Type} (tokenConvert : Token → Option T) (error : Error)
    (pt : Point) : Option (Progress T) :=
  match pt.s.head? with
  | none => some (Progress.failure pt error)
  | some originalToken =>
    match viewedToken pt originalToken with
    | none => none
    | some tok =>
      match tokenConvert tok with
      | some v => some (Progress.success (pt.advanceBy 1) v)
      | none =>
        let so := nextSubOffset pt
        match split originalToken so with
        | some (pre, _) =>
          match tokenConvert pre with
          | some v => some (Progress.success { pt with subOffset := some so } v)
          | none => some (Progress.failure pt error)
        | none => some (Progress.failure pt error)

/-- The number of in-token positions at which the splitter can split a
token — `valid_positions` in the specification's description of the
retry rule (spec section 4.D).  Sub-offsets are `u8`, hence the range. -/
def validPositions (t : Token) : Nat :=
  ((List.range 256).filter fun n => (split t n).isSome).length

/-- C3 is false as stated: the matcher consults the splitter with
`sub_offset + 1` without any wraparound, not with
`(sub_offset + 1) mod valid_positions`.  At a point inside a `>>=`
token with `sub_offset = 1`, requesting `>`:
`(1 + 1) mod valid_positions = 0` and the split at 0 has prefix `>`,
so the claim predicts a successful match — but the matcher consults
position `2`, finds no split, and fails at the original point. -/
theorem c3_mod_counterexample :
    validPositions ⟨TokenKind.shiftRightEquals, (0, 3)⟩ = 2 ∧
    ((split ⟨TokenKind.shiftRightEquals, (0, 3)⟩
        ((1 + 1) % validPositions ⟨TokenKind.shiftRightEquals, (0, 3)⟩)).bind
      fun p => Token.into_right_angle p.1).isSome = true ∧
    token Token.into_right_angle Error.ExpectedRightAngle
        ⟨0, some 1, [⟨TokenKind.shiftRightEquals, (0, 3)⟩, ⟨TokenKind.endOfFile, (3, 3)⟩]⟩ =
      some (Progress.failure
        ⟨0, some 1, [⟨TokenKind.shiftRightEquals, (0, 3)⟩, ⟨TokenKind.endOfFile, (3, 3)⟩]⟩
        Error.ExpectedRightAngle) := by
  decide

/-- C3, amended: when the whole-token match at a point fails, the
matcher consults the splitter with `sub_offset := current + 1` (`0`
when no sub-offset is set), with no wraparound.  If that split exists
and its first component matches the request, the match succeeds at the
same token index with the new sub-offset; if its first component does
not match, or no such split exists, the match fails at the original
point. -/
theorem c3_token_split_amended {T : Type} (tokenConvert : Token → Option T)
    (error : Error) (pt : Point) (orig viewed pre rest : Token) (v : T)
    (hhead : pt.s.head? = some orig)
    (hview : viewedToken pt orig = some viewed)
    (hfail : tokenConvert viewed = none) :
    (split orig (nextSubOffset pt) = some (pre, rest) → tokenConvert pre = some v →
      token tokenConvert error pt =
        some (Progress.success { pt with subOffset := some (nextSubOffset pt) } v)) ∧
    (split orig (nextSubOffset pt) = some (pre, rest) → tokenConvert pre = none →
      token tokenConvert error pt = some (Progress.failure pt error)) ∧
    (split orig (nextSubOffset pt) = none →
      token tokenConvert error pt = some (Progress.failure pt error)) := by
  refine ⟨fun hsplit hpre => ?_, fun hsplit hpre => ?_, fun hsplit => ?_⟩
  · simp [token, hhead, hview, hfail, hsplit, hpre]
  · simp [token, hhead, hview, hfail, hsplit, hpre]
  · simp [token, hhead, hview, hfail, hsplit]

/-- A point is valid when any stored sub-offset names a position at
which the splitter can split the token under the point.  The parser
only ever stores a sub-offset in the matcher's split-success branch
(src/src/lib.rs lines 2941-2944), so every point it constructs is
valid; the combinators merely copy points (spec section 9,
"Backtracking without allocation"). -/
def validPointB (pt : Point) : Bool :=
  match pt.subOffset with
  | none => true
  | some so =>
    match pt.s.head? with
    | none => false
    | some t => (split t so).isSome

/-- Validity is preserved by the matcher, and a valid point never hits
the resume panic. -/
theorem token_preserves_valid {T : Type} (tokenConvert : Token → Option T)
    (error : Error) (pt : Point) (h : validPointB pt = true) :
    token tokenConvert error pt ≠ none ∧
    ∀ pr : Progress T, token tokenConvert error pt = some pr →
      validPointB pr.point = true := by
  obtain ⟨off, so, s⟩ := pt
  rcases s with _ | ⟨t0, rest⟩
  · rcases so with _ | so
    · refine ⟨by simp [token], fun pr hpr => ?_⟩
      simp only [token, List.head?_nil, Option.some.injEq] at hpr
      subst hpr
      rfl
    · exact absurd h (by simp [validPointB])
  · rcases so with _ | so
    · rcases hc : tokenConvert t0 with _ | v
      · rcases hs : split t0 0 with _ | ⟨pre, suf⟩
        · have heq : token tokenConvert error ⟨off, none, t0 :: rest⟩ =
              some (Progress.failure ⟨off, none, t0 :: rest⟩ error) := by
            simp [token, viewedToken, nextSubOffset, hc, hs]
          refine ⟨by simp [heq], fun pr hpr => ?_⟩
          rw [heq] at hpr
          simp only [Option.some.injEq] at hpr
          subst hpr
          rfl
        · rcases hcp : tokenConvert pre with _ | v
          · have heq : token tokenConvert error ⟨off, none, t0 :: rest⟩ =
                some (Progress.failure ⟨off, none, t0 :: rest⟩ error) := by
              simp [token, viewedToken, nextSubOffset, hc, hs, hcp]
            refine ⟨by simp [heq], fun pr hpr => ?_⟩
            rw [heq] at hpr
            simp only [Option.some.injEq] at hpr
            subst hpr
            rfl
          · have heq : token tokenConvert error ⟨off, none, t0 :: rest⟩ =
                some (Progress.success ⟨off, some 0, t0 :: rest⟩ v) := by
              simp [token, viewedToken, nextSubOffset, hc, hs, hcp]
            refine ⟨by simp [heq], fun pr hpr => ?_⟩
            rw [heq] at hpr
            simp only [Option.some.injEq] at hpr
            subst hpr
            simp [validPointB, Progress.success, hs]
      · have heq : token tokenConvert error ⟨off, none, t0 :: rest⟩ =
            some (Progress.success (Point.advanceBy ⟨off, none, t0 :: rest⟩ 1) v) := by
          simp [token, viewedToken, hc]
        refine ⟨by simp [heq], fun pr hpr => ?_⟩
        rw [heq] at hpr
        simp only [Option.some.injEq] at hpr
        subst hpr
        rfl
    · have hsp : (split t0 so).isSome = true := by
        simpa [validPointB] using h
      obtain ⟨⟨pre0, suf0⟩, hpair⟩ := Option.isSome_iff_exists.mp hsp
      rcases hc : tokenConvert suf0 with _ | v
      · rcases hs : split t0 (so + 1) with _ | ⟨pre, suf⟩
        · have heq : token tokenConvert error ⟨off, some so, t0 :: rest⟩ =
              some (Progress.failure ⟨off, some so, t0 :: rest⟩ error) := by
            simp [token, viewedToken, nextSubOffset, hpair, hc, hs]
          refine ⟨by simp [heq], fun pr hpr => ?_⟩
          rw [heq] at hpr
          simp only [Option.some.injEq] at hpr
          subst hpr
          exact h
        · rcases hcp : tokenConvert pre with _ | v
          · have heq : token tokenConvert error ⟨off, some so, t0 :: rest⟩ =
                some (Progress.failure ⟨off, some so, t0 :: rest⟩ error) := by
              simp [token, viewedToken, nextSubOffset, hpair, hc, hs, hcp]
            refine ⟨by simp [heq], fun pr hpr => ?_⟩
            rw [heq] at hpr
            simp only [Option.some.injEq] at hpr
            subst hpr
            exact h
          · have heq : token tokenConvert error ⟨off, some so, t0 :: rest⟩ =
                some (Progress.success ⟨off, some (so + 1), t0 :: rest⟩ v) := by
              simp [token, viewedToken, nextSubOffset, hpair, hc, hs, hcp]
            refine ⟨by simp [heq], fun pr hpr => ?_⟩
            rw [heq] at hpr
            simp only [Option.some.injEq] at hpr
            subst hpr
            simp [validPointB, Progress.success, hs]
      · have heq : token tokenConvert error ⟨off, some so, t0 :: rest⟩ =
            some (Progress.success (Point.advanceBy ⟨off, some so, t0 :: rest⟩ 1) v) := by
          simp [token, viewedToken, hpair, hc]
        refine ⟨by simp [heq], fun pr hpr => ?_⟩
        rw [heq] at hpr
        simp only [Option.some.injEq] at hpr
        subst hpr
        rfl

/-- C10: fresh points and whole-token advances carry no sub-offset; a
sub-offset is only ever stored by the matcher's split-success branch,
where the split at that very position exists, so at every valid point
the matcher's `Cannot resume a split token` failure is unreachable and
the resulting point is again valid. -/
theorem c10_resume_panic_unreachable {T : Type} (tokenConvert : Token → Option T)
    (error : Error) (pt : Point) (toks : List Token) (k : Nat) (pr : Progress T)
    (h : validPointB pt = true) :
    validPointB (Point.new toks) = true ∧
    validPointB (pt.advanceBy k) = true ∧
    token tokenConvert error pt ≠ none ∧
    (token tokenConvert error pt = some pr → validPointB pr.point = true) :=
  ⟨rfl, rfl, (token_preserves_valid tokenConvert error pt h).1,
    fun hpr => (token_preserves_valid tokenConvert error pt h).2 pr hpr⟩

/-- Rust's three-way comparison on `usize`. -/
def natCmp (a b : Nat) : Ordering :=
  if a < b then Ordering.lt else if a = b then Ordering.eq else Ordering.gt

/-- Rust's derived ordering on `Option<u8>`: `None` sorts before any
`Some`. -/
def optCmp : Option Nat → Option Nat → Ordering
  | none, none => Ordering.eq
  | none, some _ => Ordering.lt
  | some _, none => Ordering.gt
  | some a, some b => natCmp a b

/-- `pt.sub_offset.map_or(0, |x| x + 1)` (src/src/lib.rs lines 140 and
147): the byte adjustment a sub-offset adds to a boundary. -/
def subOffAdd : Option Nat → Nat
  | some x => x + 1
  | none => 0

/-- `State::ex` (src/src/lib.rs lines 130-173): resolve a pair of parse
points to the byte extent they span, through the first token's start
offset and the previous token's end offset.  `none` models the panics
(backwards points, or indexing outside `start.s`). -/
def ex (start fin : Point) : Option Extent :=
  let relativeTokens := start.s
  let startOffset : Point → Option Nat := fun pt =>
    (relativeTokens.get? 0).map fun t => t.extent.1 + subOffAdd pt.subOffset
  let endOffset : Point → Option Nat := fun pt =>
    (relativeTokens.get? (pt.offset - start.offset - 1)).map fun t =>
      t.extent.2 + subOffAdd pt.subOffset
  match natCmp start.offset fin.offset with
  | Ordering.lt =>
    match startOffset start, endOffset fin with
    | some a, some b => some (a, b)
    | _, _ => none
  | Ordering.eq =>
    match optCmp start.subOffset fin.subOffset with
    | Ordering.lt =>
      match startOffset start, startOffset fin with
      | some a, some b => some (a, b)
      | _, _ => none
    | Ordering.eq => (startOffset start).map fun a => (a, a)
    | Ordering.gt => none
  | Ordering.gt => none

/-- The number of tokens the `parse_nested_until` loop consumes
(`skipped`, src/src/lib.rs lines 2480-2497): walk the tokens tracking a
depth, stopping at end-of-file or at the first close-token at depth
zero. -/
def nestedSkip (isOpen isClose : Token → Bool) : List Token → Nat → Nat
  | [], _ => 0
  | t :: rest, depth =>
    if t.isEndOfFile then 0
    else if isOpen t then 1 + nestedSkip isOpen isClose rest (depth + 1)
    else if isClose t then
      if depth = 0 then 0 else 1 + nestedSkip isOpen isClose rest (depth - 1)
    else 1 + nestedSkip isOpen isClose rest depth

/-- `fn parse_nested_until(is_open, is_close)` (src/src/lib.rs lines
2474-2502): advance past the consumed tokens and return their extent.
The outer `Option` models the panic inside `State::ex`. -/
def parse_nested_until (isOpen isClose : Token → Bool) (spt : Point) :
    Option (Progress Extent) :=
  let skipped := nestedSkip isOpen isClose spt.s 0
  let pt := spt.advanceBy skipped
  (ex spt pt).map fun e => Progress.success pt e

/-- One step of the nesting depth: an open-token increments, a
close-token (checked only when not an open-token) decrements, anything
else leaves the depth unchanged. -/
def nestedStep (isOpen isClose : Token → Bool) (d : Nat) (t : Token) : Nat :=
  if isOpen t then d + 1 else if isClose t then d - 1 else d

/-- The loop's stopping condition at depth `d`: end-of-file, or a
close-token (that is not an open-token) at depth zero. -/
def nestedStops (isOpen isClose : Token → Bool) (d : Nat) (t : Token) : Bool :=
  t.isEndOfFile || (!isOpen t && isClose t && d = 0)

/-- The specification-side formula for the span of the consumed
tokens: empty at the first token's start when nothing was consumed,
otherwise from the first consumed token's start to the last consumed
token's end. -/
def consumedSpan (spt : Point) (k : Nat) : Option Extent :=
  spt.s.head?.bind fun t0 =>
    if k = 0 then some (t0.extent.1, t0.extent.1)
    else (spt.s.get? (k - 1)).map fun tl => (t0.extent.1, tl.extent.2)

theorem nestedSkip_le (o c : Token → Bool) (l : List Token) (d : Nat) :
    nestedSkip o c l d ≤ l.length := by
  induction l generalizing d with
  | nil => simp [nestedSkip]
  | cons t rest ih =>
    have h1 := ih (d + 1)
    have h2 := ih (d - 1)
    have h3 := ih d
    simp only [nestedSkip, List.length_cons]
    split_ifs <;> omega

theorem nestedSkip_not_stopped (o c : Token → Bool) :
    ∀ (l : List Token) (d i : Nat), i < nestedSkip o c l d →
      ∃ t, l.get? i = some t ∧
        nestedStops o c ((l.take i).foldl (nestedStep o c) d) t = false
  | [], d, i, hi => absurd hi (by simp [nestedSkip])
  | t :: rest, d, i, hi => by
    by_cases heof : t.isEndOfFile = true
    · simp [nestedSkip, heof] at hi
    · by_cases hop : o t = true
      · rw [show nestedSkip o c (t :: rest) d = 1 + nestedSkip o c rest (d + 1) by
          simp [nestedSkip, heof, hop]] at hi
        match i with
        | 0 => exact ⟨t, rfl, by simp [nestedStops, heof, hop]⟩
        | i + 1 =>
          obtain ⟨t', ht', hs⟩ :=
            nestedSkip_not_stopped o c rest (d + 1) i (by omega)
          refine ⟨t', ht', ?_⟩
          have hshift : ((t :: rest).take (i + 1)).foldl (nestedStep o c) d
              = (rest.take i).foldl (nestedStep o c) (d + 1) := by
            show (rest.take i).foldl (nestedStep o c) (nestedStep o c d t) = _
            rw [show nestedStep o c d t = d + 1 by simp [nestedStep, hop]]
          rw [hshift]
          exact hs
      · by_cases hcl : c t = true
        · by_cases hd : d = 0
          · simp [nestedSkip, heof, hop, hcl, hd] at hi
          · rw [show nestedSkip o c (t :: rest) d = 1 + nestedSkip o c rest (d - 1) by
              simp [nestedSkip, heof, hop, hcl, hd]] at hi
            match i with
            | 0 => exact ⟨t, rfl, by simp [nestedStops, heof, hop, hcl, hd]⟩
            | i + 1 =>
              obtain ⟨t', ht', hs⟩ :=
                nestedSkip_not_stopped o c rest (d - 1) i (by omega)
              refine ⟨t', ht', ?_⟩
              have hshift : ((t :: rest).take (i + 1)).foldl (nestedStep o c) d
                  = (rest.take i).foldl (nestedStep o c) (d - 1) := by
                show (rest.take i).foldl (nestedStep o c) (nestedStep o c d t) = _
                rw [show nestedStep o c d t = d - 1 by simp [nestedStep, hop, hcl]]
              rw [hshift]
              exact hs
        · rw [show nestedSkip o c (t :: rest) d = 1 + nestedSkip o c rest d by
            simp [nestedSkip, heof, hop, hcl]] at hi
          match i with
          | 0 => exact ⟨t, rfl, by simp [nestedStops, heof, hop, hcl]⟩
          | i + 1 =>
            obtain ⟨t', ht', hs⟩ :=
              nestedSkip_not_stopped o c rest d i (by omega)
            refine ⟨t', ht', ?_⟩
            have hshift : ((t :: rest).take (i + 1)).foldl (nestedStep o c) d
                = (rest.take i).foldl (nestedStep o c) d := by
              show (rest.take i).foldl (nestedStep o c) (nestedStep o c d t) = _
              rw [show nestedStep o c d t = d by simp [nestedStep, hop, hcl]]
            rw [hshift]
            exact hs

theorem nestedSkip_stopped (o c : Token → Bool) :
    ∀ (l : List Token) (d : Nat), nestedSkip o c l d < l.length →
      ∃ t, l.get? (nestedSkip o c l d) = some t ∧
        nestedStops o c ((l.take (nestedSkip o c l d)).foldl (nestedStep o c) d) t
          = true
  | [], d, h => absurd h (by simp [nestedSkip])
  | t :: rest, d, h => by
    by_cases heof : t.isEndOfFile = true
    · rw [show nestedSkip o c (t :: rest) d = 0 by simp [nestedSkip, heof]]
      exact ⟨t, rfl, by simp [nestedStops, heof]⟩
    · by_cases hop : o t = true
      · have hskip : nestedSkip o c (t :: rest) d = nestedSkip o c rest (d + 1) + 1 := by
          simp [nestedSkip, heof, hop]; omega
        rw [hskip] at h ⊢
        obtain ⟨t', ht', hs⟩ :=
          nestedSkip_stopped o c rest (d + 1) (by simpa using h)
        refine ⟨t', ht', ?_⟩
        have hshift : ((t :: rest).take (nestedSkip o c rest (d + 1) + 1)).foldl
              (nestedStep o c) d
            = (rest.take (nestedSkip o c rest (d + 1))).foldl (nestedStep o c) (d + 1) := by
          show (rest.take (nestedSkip o c rest (d + 1))).foldl (nestedStep o c)
              (nestedStep o c d t) = _
          rw [show nestedStep o c d t = d + 1 by simp [nestedStep, hop]]
        rw [hshift]
        exact hs
      · by_cases hcl : c t = true
        · by_cases hd : d = 0
          · rw [show nestedSkip o c (t :: rest) d = 0 by
              simp [nestedSkip, heof, hop, hcl, hd]]
            exact ⟨t, rfl, by simp [nestedStops, heof, hop, hcl, hd]⟩
          · have hskip : nestedSkip o c (t :: rest) d
                = nestedSkip o c rest (d - 1) + 1 := by
              simp [nestedSkip, heof, hop, hcl, hd]; omega
            rw [hskip] at h ⊢
            obtain ⟨t', ht', hs⟩ :=
              nestedSkip_stopped o c rest (d - 1) (by simpa using h)
            refine ⟨t', ht', ?_⟩
            have hshift : ((t :: rest).take (nestedSkip o c rest (d - 1) + 1)).foldl
                  (nestedStep o c) d
                = (rest.take (nestedSkip o c rest (d - 1))).foldl (nestedStep o c)
                  (d - 1) := by
              show (rest.take (nestedSkip o c rest (d - 1))).foldl (nestedStep o c)
                  (nestedStep o c d t) = _
              rw [show nestedStep o c d t = d - 1 by simp [nestedStep, hop, hcl]]
            rw [hshift]
            exact hs
        · have hskip : nestedSkip o c (t :: rest) d = nestedSkip o c rest d + 1 := by
            simp [nestedSkip, heof, hop, hcl]; omega
          rw [hskip] at h ⊢
          obtain ⟨t', ht', hs⟩ := nestedSkip_stopped o c rest d (by simpa using h)
          refine ⟨t', ht', ?_⟩
          have hshift : ((t :: rest).take (nestedSkip o c rest d + 1)).foldl
                (nestedStep o c) d
              = (rest.take (nestedSkip o c rest d)).foldl (nestedStep o c) d := by
            show (rest.take (nestedSkip o c rest d)).foldl (nestedStep o c)
                (nestedStep o c d t) = _
            rw [show nestedStep o c d t = d by simp [nestedStep, hop, hcl]]
          rw [hshift]
          exact hs

theorem ex_advanceBy_consumedSpan (spt : Point) (k : Nat)
    (hne : spt.s ≠ []) (hso : spt.subOffset = none) (hk : k ≤ spt.s.length) :
    ex spt (spt.advanceBy k) = consumedSpan spt k := by
  obtain ⟨off, so, s⟩ := spt
  subst hso
  rcases s with _ | ⟨t0, rest⟩
  · exact absurd rfl hne
  · match k with
    | 0 => simp [ex, natCmp, optCmp, Point.advanceBy, consumedSpan, subOffAdd]
    | k + 1 =>
      have hidx : off + (k + 1) - off - 1 = k := by omega
      have hcmp : natCmp off (off + (k + 1)) = Ordering.lt := by
        simp [natCmp]
      have hlt : k < (t0 :: rest).length := by
        simp at hk ⊢
        omega
      obtain ⟨tl, htl⟩ : ∃ tl, (t0 :: rest)[k]? = some tl :=
        ⟨(t0 :: rest)[k], List.getElem?_eq_getElem hlt⟩
      simp [ex, Point.advanceBy, hcmp, hidx, htl, subOffAdd, consumedSpan]

theorem consumedSpan_isSome (spt : Point) (k : Nat) (hne : spt.s ≠ [])
    (hk : k ≤ spt.s.length) : (consumedSpan spt k).isSome = true := by
  rcases hs : spt.s with _ | ⟨t0, rest⟩
  · exact absurd hs hne
  · rw [consumedSpan, hs]
    rcases k with _ | k
    · simp
    · rw [hs] at hk
      have hlt : k < (t0 :: rest).length := by
        simp at hk ⊢
        omega
      obtain ⟨tl, htl⟩ : ∃ tl, (t0 :: rest)[k]? = some tl :=
        ⟨(t0 :: rest)[k], List.getElem?_eq_getElem hlt⟩
      simp [htl]

/-- C7: `parse_nested_until` always succeeds (given the end-of-file
sentinel the tokenizer always appends, i.e. a nonempty remaining token
slice, and a whole-token starting point): the result advances by
exactly `nestedSkip` tokens and carries the span of the consumed
tokens; every consumed token fails the stopping condition (it is not
end-of-file, and not a close-token at running depth zero), the count
never exceeds the available tokens, and when the loop stops before the
end of the slice, the token under the final point satisfies the
stopping condition — in particular that depth-zero close-token is not
consumed. -/
theorem c7_parse_nested_until (isOpen isClose : Token → Bool) (spt : Point)
    (hne : spt.s ≠ []) (hso : spt.subOffset = none) :
    (parse_nested_until isOpen isClose spt =
      (consumedSpan spt (nestedSkip isOpen isClose spt.s 0)).map fun e =>
        Progress.success (spt.advanceBy (nestedSkip isOpen isClose spt.s 0)) e) ∧
    (consumedSpan spt (nestedSkip isOpen isClose spt.s 0)).isSome = true ∧
    nestedSkip isOpen isClose spt.s 0 ≤ spt.s.length ∧
    (∀ i, i < nestedSkip isOpen isClose spt.s 0 →
      ∃ t, spt.s.get? i = some t ∧
        nestedStops isOpen isClose
          ((spt.s.take i).foldl (nestedStep isOpen isClose) 0) t = false) ∧
    (nestedSkip isOpen isClose spt.s 0 < spt.s.length →
      ∃ t, spt.s.get? (nestedSkip isOpen isClose spt.s 0) = some t ∧
        nestedStops isOpen isClose
          ((spt.s.take (nestedSkip isOpen isClose spt.s 0)).foldl
            (nestedStep isOpen isClose) 0) t = true) := by
  have hle := nestedSkip_le isOpen isClose spt.s 0
  have hex := ex_advanceBy_consumedSpan spt (nestedSkip isOpen isClose spt.s 0)
    hne hso hle
  refine ⟨?_, ?_, hle, nestedSkip_not_stopped isOpen isClose spt.s 0,
    nestedSkip_stopped isOpen isClose spt.s 0⟩
  · rw [parse_nested_until, hex]
  · exact consumedSpan_isSome spt _ hne hle

/-- `pub struct Attribute` (src/src/lib.rs lines 466-469). -/
structure Attribute where
  extent : Extent
  text : Extent
deriving DecidableEq, Repr

/-- Modelled from the spec: an expression of the missing `expression`
module.  Expressions have ~40 shapes (spec section 3); no claim below
inspects them, so only the extent is modelled. -/
structure Expression where
  extent : Extent
deriving DecidableEq, Repr

/-- The `Item` union (src/src/lib.rs lines 446-464) has sixteen
variants whose internal structure no claim below inspects; it is
modelled by its extent. -/
structure Item where
  extent : Extent
deriving DecidableEq, Repr

/-- `pub struct Attributed<T>` (src/src/lib.rs lines 1072-1077). -/
structure Attributed (T : Type) where
  extent : Extent
  attributes : List Attribute
  value : T
deriving DecidableEq, Repr

/-- `pub enum Statement` (src/src/lib.rs lines 1066-1070). -/
inductive Statement where
  | expression (e : Attributed Expression)
  | item (i : Attributed Item)
  | empty (ext : Extent)
deriving DecidableEq, Repr

/-- Modelled from the spec: `Statement::is_expression`, generated by
the missing `Decompose` derive — true exactly on the
expression-shaped variant. -/
def Statement.is_expression : Statement → Bool
  | Statement.expression _ => true
  | _ => false

/-- Modelled from the spec: `Statement::into_expression`, generated by
the missing `Decompose` derive — the payload of the expression-shaped
variant. -/
def Statement.into_expression : Statement → Option (Attributed Expression)
  | Statement.expression e => some e
  | _ => none

/-- `pub struct Block` (src/src/lib.rs lines 1045-1050); the
`whitespace` field is elided (it is always constructed empty,
line 3326). -/
structure Block where
  extent : Extent
  statements : List Statement
  expression : Option (Attributed Expression)
deriving DecidableEq, Repr

/-- The result assembly of `fn block` (src/src/lib.rs lines
3315-3327): given the statements and the terminator flag
(`last_had_separator` from
`zero_or_more_implicitly_tailed_values_terminated`, line 3313), lift a
trailing expression-shaped statement into the block's `expression`
slot when no separator terminated the list. -/
def mkBlock (extent : Extent) (stmts : List Statement) (term : Bool) : Block :=
  if !term && (stmts.getLast?.map Statement.is_expression).getD false then
    { extent := extent
      statements := stmts.dropLast
      expression := stmts.getLast?.bind Statement.into_expression }
  else
    { extent := extent, statements := stmts, expression := none }

/-- C5: a block's `expression` field is `some` exactly when the last
recognized statement is expression-shaped and the statement list was
not terminated by a separator; in that case the last statement is
removed from `statements` and lifted into `expression`, and otherwise
the statements are kept whole and `expression` is `none`. -/
theorem c5_block_trailing_expression (extent : Extent) (stmts : List Statement)
    (term : Bool) (e : Attributed Expression) :
    ((mkBlock extent stmts term).expression.isSome = true ↔
      (term = false ∧
        (stmts.getLast?.map Statement.is_expression).getD false = true)) ∧
    (term = false → stmts.getLast? = some (Statement.expression e) →
      mkBlock extent stmts term =
        { extent := extent, statements := stmts.dropLast, expression := some e }) ∧
    (term = true →
      mkBlock extent stmts term =
        { extent := extent, statements := stmts, expression := none }) ∧
    ((stmts.getLast?.map Statement.is_expression).getD false = false →
      mkBlock extent stmts term =
        { extent := extent, statements := stmts, expression := none }) := by
  rcases hl : stmts.getLast? with _ | st
  · cases term <;> simp [mkBlock, hl]
  · cases st <;> cases term <;> simp [mkBlock, hl, Statement.is_expression,
      Statement.into_expression]

/-- `pub struct Ident` (src/src/lib.rs lines 776-778). -/
structure Ident where
  extent : Extent
deriving DecidableEq, Repr

/-- `kw_default` from the `shims!` table (src/src/lib.rs line 2829). -/
def kw_default (pt : Point) : Option (Progress Extent) :=
  token Token.into_default Error.ExpectedDefault pt

/-- `kw_self_ident` from the `shims!` table (src/src/lib.rs line 2847). -/
def kw_self_ident (pt : Point) : Option (Progress Extent) :=
  token Token.into_self_ident Error.ExpectedSelfIdent pt

/-- `kw_union` from the `shims!` table (src/src/lib.rs line 2852). -/
def kw_union (pt : Point) : Option (Progress Extent) :=
  token Token.into_union Error.ExpectedUnion pt

/-- `ident_normal` from the `shims!` table (src/src/lib.rs line 2811). -/
def ident_normal (pt : Point) : Option (Progress Extent) :=
  token Token.into_ident Error.ExpectedIdent pt

/-- `fn ident` (src/src/lib.rs lines 3086-3095): alternate over
`kw_default`, `kw_self_ident`, `kw_union` and `ident_normal`, wrap the
extent in an `Ident`, and collapse any failure to `ExpectedIdent`.
The alternation is modelled from the spec's `alternate` contract
(section 4.E): branches are tried in declared order, the first success
wins, and a failure rewinds to the incoming point. -/
def ident (pt : Point) : Option (Progress Ident) :=
  match kw_default pt with
  | none => none
  | some ⟨p, Status.success ext⟩ => some ⟨p, Status.success ⟨ext⟩⟩
  | some ⟨_, Status.failure _⟩ =>
    match kw_self_ident pt with
    | none => none
    | some ⟨p, Status.success ext⟩ => some ⟨p, Status.success ⟨ext⟩⟩
    | some ⟨_, Status.failure _⟩ =>
      match kw_union pt with
      | none => none
      | some ⟨p, Status.success ext⟩ => some ⟨p, Status.success ⟨ext⟩⟩
      | some ⟨_, Status.failure _⟩ =>
        match ident_normal pt with
        | none => none
        | some ⟨p, Status.success ext⟩ => some ⟨p, Status.success ⟨ext⟩⟩
        | some ⟨_, Status.failure _⟩ =>
          some (Progress.failure pt Error.ExpectedIdent)

/-- The token kinds the `ident` rule accepts: ordinary identifiers and
the keywords `default`, `self` and `union`. -/
def identAccepts (k : TokenKind) : Bool :=
  k = TokenKind.kwDefault || k = TokenKind.kwSelfIdent ||
    k = TokenKind.kwUnion || k = TokenKind.ident

/-- C9: at a whole-token point, `ident` succeeds exactly on ordinary
identifier tokens and the keyword tokens `default`, `self` and
`union`, yielding an `Ident` whose extent is the token's extent and
advancing one token; on every other token it fails at the same point
with the single error `ExpectedIdent`. -/
theorem c9_ident_accepts (off s e : Nat) (k : TokenKind) (rest : List Token) :
    (identAccepts k = true →
      ident ⟨off, none, ⟨k, (s, e)⟩ :: rest⟩ =
        some (Progress.success ⟨off + 1, none, rest⟩ ⟨(s, e)⟩)) ∧
    (identAccepts k = false →
      ident ⟨off, none, ⟨k, (s, e)⟩ :: rest⟩ =
        some (Progress.failure ⟨off, none, ⟨k, (s, e)⟩ :: rest⟩
          Error.ExpectedIdent)) := by
  cases k <;>
    exact ⟨fun h => by first | rfl | exact Bool.noConfusion h,
           fun h => by first | rfl | exact Bool.noConfusion h⟩

/-- The declaration-order index of an expectation code: the order the
derived `Ord` on `Error` sorts by (src/src/lib.rs line 177). -/
def errCode : Error → Nat
  | Error.ExpectedAmpersand => 0
  | Error.ExpectedAmpersandEquals => 1
  | Error.ExpectedAs => 2
  | Error.ExpectedAsterisk => 3
  | Error.ExpectedAt => 4
  | Error.ExpectedBackslash => 5
  | Error.ExpectedBang => 6
  | Error.ExpectedBox => 7
  | Error.ExpectedBreak => 8
  | Error.ExpectedByte => 9
  | Error.ExpectedByteString => 10
  | Error.ExpectedByteStringRaw => 11
  | Error.ExpectedCaret => 12
  | Error.ExpectedCaretEquals => 13
  | Error.ExpectedCharacter => 14
  | Error.ExpectedColon => 15
  | Error.ExpectedComma => 16
  | Error.ExpectedConst => 17
  | Error.ExpectedContinue => 18
  | Error.ExpectedCrate => 19
  | Error.ExpectedDefault => 20
  | Error.ExpectedDivideEquals => 21
  | Error.ExpectedDollar => 22
  | Error.ExpectedDoubleAmpersand => 23
  | Error.ExpectedDoubleColon => 24
  | Error.ExpectedDoubleEquals => 25
  | Error.ExpectedDoubleLeftAngle => 26
  | Error.ExpectedDoublePeriod => 27
  | Error.ExpectedDoublePipe => 28
  | Error.ExpectedDoubleRightAngle => 29
  | Error.ExpectedElse => 30
  | Error.ExpectedEnum => 31
  | Error.ExpectedEquals => 32
  | Error.ExpectedExtern => 33
  | Error.ExpectedFn => 34
  | Error.ExpectedFor => 35
  | Error.ExpectedGreaterThanOrEquals => 36
  | Error.ExpectedHash => 37
  | Error.ExpectedIdent => 38
  | Error.ExpectedIf => 39
  | Error.ExpectedImpl => 40
  | Error.ExpectedIn => 41
  | Error.ExpectedLeftAngle => 42
  | Error.ExpectedLeftCurly => 43
  | Error.ExpectedLeftParen => 44
  | Error.ExpectedLeftSquare => 45
  | Error.ExpectedLessThanOrEquals => 46
  | Error.ExpectedLet => 47
  | Error.ExpectedLifetime => 48
  | Error.ExpectedLoop => 49
  | Error.ExpectedMatch => 50
  | Error.ExpectedMinus => 51
  | Error.ExpectedMinusEquals => 52
  | Error.ExpectedMod => 53
  | Error.ExpectedMove => 54
  | Error.ExpectedMut => 55
  | Error.ExpectedNotEqual => 56
  | Error.ExpectedNumber => 57
  | Error.ExpectedPercent => 58
  | Error.ExpectedPercentEquals => 59
  | Error.ExpectedPeriod => 60
  | Error.ExpectedPipe => 61
  | Error.ExpectedPipeEquals => 62
  | Error.ExpectedPlus => 63
  | Error.ExpectedPlusEquals => 64
  | Error.ExpectedPub => 65
  | Error.ExpectedQuestionMark => 66
  | Error.ExpectedRef => 67
  | Error.ExpectedReturn => 68
  | Error.ExpectedRightAngle => 69
  | Error.ExpectedRightCurly => 70
  | Error.ExpectedRightParen => 71
  | Error.ExpectedRightSquare => 72
  | Error.ExpectedSelfIdent => 73
  | Error.ExpectedSemicolon => 74
  | Error.ExpectedShiftLeftEquals => 75
  | Error.ExpectedShiftRightEquals => 76
  | Error.ExpectedSlash => 77
  | Error.ExpectedStatic => 78
  | Error.ExpectedString => 79
  | Error.ExpectedStringRaw => 80
  | Error.ExpectedStruct => 81
  | Error.ExpectedThickArrow => 82
  | Error.ExpectedThinArrow => 83
  | Error.ExpectedTilde => 84
  | Error.ExpectedTimesEquals => 85
  | Error.ExpectedTrait => 86
  | Error.ExpectedTriplePeriod => 87
  | Error.ExpectedType => 88
  | Error.ExpectedUnion => 89
  | Error.ExpectedUnsafe => 90
  | Error.ExpectedUse => 91
  | Error.ExpectedWhere => 92
  | Error.ExpectedWhile => 93
  | Error.ExpectedExpression => 94
  | Error.BlockNotAllowedHere => 95

/-- The retraction of `errCode`, establishing its injectivity. -/
def errFromCode : Nat → Option Error
  | 0 => some Error.ExpectedAmpersand
  | 1 => some Error.ExpectedAmpersandEquals
  | 2 => some Error.ExpectedAs
  | 3 => some Error.ExpectedAsterisk
  | 4 => some Error.ExpectedAt
  | 5 => some Error.ExpectedBackslash
  | 6 => some Error.ExpectedBang
  | 7 => some Error.ExpectedBox
  | 8 => some Error.ExpectedBreak
  | 9 => some Error.ExpectedByte
  | 10 => some Error.ExpectedByteString
  | 11 => some Error.ExpectedByteStringRaw
  | 12 => some Error.ExpectedCaret
  | 13 => some Error.ExpectedCaretEquals
  | 14 => some Error.ExpectedCharacter
  | 15 => some Error.ExpectedColon
  | 16 => some Error.ExpectedComma
  | 17 => some Error.ExpectedConst
  | 18 => some Error.ExpectedContinue
  | 19 => some Error.ExpectedCrate
  | 20 => some Error.ExpectedDefault
  | 21 => some Error.ExpectedDivideEquals
  | 22 => some Error.ExpectedDollar
  | 23 => some Error.ExpectedDoubleAmpersand
  | 24 => some Error.ExpectedDoubleColon
  | 25 => some Error.ExpectedDoubleEquals
  | 26 => some Error.ExpectedDoubleLeftAngle
  | 27 => some Error.ExpectedDoublePeriod
  | 28 => some Error.ExpectedDoublePipe
  | 29 => some Error.ExpectedDoubleRightAngle
  | 30 => some Error.ExpectedElse
  | 31 => some Error.ExpectedEnum
  | 32 => some Error.ExpectedEquals
  | 33 => some Error.ExpectedExtern
  | 34 => some Error.ExpectedFn
  | 35 => some Error.ExpectedFor
  | 36 => some Error.ExpectedGreaterThanOrEquals
  | 37 => some Error.ExpectedHash
  | 38 => some Error.ExpectedIdent
  | 39 => some Error.ExpectedIf
  | 40 => some Error.ExpectedImpl
  | 41 => some Error.ExpectedIn
  | 42 => some Error.ExpectedLeftAngle
  | 43 => some Error.ExpectedLeftCurly
  | 44 => some Error.ExpectedLeftParen
  | 45 => some Error.ExpectedLeftSquare
  | 46 => some Error.ExpectedLessThanOrEquals
  | 47 => some Error.ExpectedLet
  | 48 => some Error.ExpectedLifetime
  | 49 => some Error.ExpectedLoop
  | 50 => some Error.ExpectedMatch
  | 51 => some Error.ExpectedMinus
  | 52 => some Error.ExpectedMinusEquals
  | 53 => some Error.ExpectedMod
  | 54 => some Error.ExpectedMove
  | 55 => some Error.ExpectedMut
  | 56 => some Error.ExpectedNotEqual
  | 57 => some Error.ExpectedNumber
  | 58 => some Error.ExpectedPercent
  | 59 => some Error.ExpectedPercentEquals
  | 60 => some Error.ExpectedPeriod
  | 61 => some Error.ExpectedPipe
  | 62 => some Error.ExpectedPipeEquals
  | 63 => some Error.ExpectedPlus
  | 64 => some Error.ExpectedPlusEquals
  | 65 => some Error.ExpectedPub
  | 66 => some Error.ExpectedQuestionMark
  | 67 => some Error.ExpectedRef
  | 68 => some Error.ExpectedReturn
  | 69 => some Error.ExpectedRightAngle
  | 70 => some Error.ExpectedRightCurly
  | 71 => some Error.ExpectedRightParen
  | 72 => some Error.ExpectedRightSquare
  | 73 => some Error.ExpectedSelfIdent
  | 74 => some Error.ExpectedSemicolon
  | 75 => some Error.ExpectedShiftLeftEquals
  | 76 => some Error.ExpectedShiftRightEquals
  | 77 => some Error.ExpectedSlash
  | 78 => some Error.ExpectedStatic
  | 79 => some Error.ExpectedString
  | 80 => some Error.ExpectedStringRaw
  | 81 => some Error.ExpectedStruct
  | 82 => some Error.ExpectedThickArrow
  | 83 => some Error.ExpectedThinArrow
  | 84 => some Error.ExpectedTilde
  | 85 => some Error.ExpectedTimesEquals
  | 86 => some Error.ExpectedTrait
  | 87 => some Error.ExpectedTriplePeriod
  | 88 => some Error.ExpectedType
  | 89 => some Error.ExpectedUnion
  | 90 => some Error.ExpectedUnsafe
  | 91 => some Error.ExpectedUse
  | 92 => some Error.ExpectedWhere
  | 93 => some Error.ExpectedWhile
  | 94 => some Error.ExpectedExpression
  | 95 => some Error.BlockNotAllowedHere
  | _ => none

theorem errFromCode_errCode (e : Error) : errFromCode (errCode e) = some e := by
  cases e <;> rfl

theorem errCode_inj {a b : Error} (h : errCode a = errCode b) : a = b := by
  have h2 := congrArg errFromCode h
  rw [errFromCode_errCode, errFromCode_errCode] at h2
  exact Option.some.inj h2

/-- Modelled from the spec: insertion into the sorted, deduplicated
error set (`BTreeSet<Error>`, built by `e.into_iter().collect()` at
src/src/lib.rs line 405).  Errors are ordered by declaration order
(the derived `Ord` at line 177). -/
def btInsert (e : Error) : List Error → List Error
  | [] => [e]
  | x :: xs =>
    if errCode e < errCode x then e :: x :: xs
    else if errCode e = errCode x then x :: xs
    else x :: btInsert e xs

/-- Modelled from the spec: the sorted, deduplicated error set of a
list of expectation codes. -/
def btreeOfList (l : List Error) : List Error :=
  l.foldl (fun acc e => btInsert e acc) []

theorem mem_btInsert (a e : Error) (l : List Error) :
    a ∈ btInsert e l ↔ a = e ∨ a ∈ l := by
  induction l with
  | nil => simp [btInsert]
  | cons x xs ih =>
    simp only [btInsert]
    split_ifs with h1 h2
    · simp [List.mem_cons]
    · have hex : e = x := errCode_inj h2
      subst hex
      simp [List.mem_cons]
    · simp only [List.mem_cons, ih]
      tauto

theorem pairwise_btInsert (e : Error) (l : List Error)
    (h : List.Pairwise (fun a b => errCode a < errCode b) l) :
    List.Pairwise (fun a b => errCode a < errCode b) (btInsert e l) := by
  induction l with
  | nil => simp [btInsert]
  | cons x xs ih =>
    obtain ⟨hx, hxs⟩ := List.pairwise_cons.mp h
    simp only [btInsert]
    split_ifs with h1 h2
    · refine List.pairwise_cons.mpr ⟨?_, h⟩
      intro b hb
      rcases List.mem_cons.mp hb with rfl | hb
      · exact h1
      · exact lt_trans h1 (hx b hb)
    · exact h
    · refine List.pairwise_cons.mpr ⟨?_, ih hxs⟩
      intro b hb
      rcases (mem_btInsert b e xs).mp hb with rfl | hb
      · omega
      · exact hx b hb

theorem pairwise_btreeOfList (l : List Error) :
    List.Pairwise (fun a b => errCode a < errCode b) (btreeOfList l) := by
  suffices hgen : ∀ acc, List.Pairwise (fun a b => errCode a < errCode b) acc →
      List.Pairwise (fun a b => errCode a < errCode b)
        (l.foldl (fun acc e => btInsert e acc) acc) by
    exact hgen [] (by simp)
  induction l with
  | nil => intro acc hacc; simpa using hacc
  | cons x xs ih =>
    intro acc hacc
    exact ih (btInsert x acc) (pairwise_btInsert x acc hacc)

theorem mem_btreeOfList (a : Error) (l : List Error) :
    a ∈ btreeOfList l ↔ a ∈ l := by
  suffices hgen : ∀ acc, (a ∈ l.foldl (fun acc e => btInsert e acc) acc ↔
      a ∈ acc ∨ a ∈ l) by
    simpa using hgen []
  induction l with
  | nil => intro acc; simp
  | cons x xs ih =>
    intro acc
    rw [List.foldl_cons, ih (btInsert x acc)]
    simp only [mem_btInsert, List.mem_cons]
    tauto

theorem nodup_btreeOfList (l : List Error) : (btreeOfList l).Nodup :=
  (pairwise_btreeOfList l).imp fun hlt heq => absurd (heq ▸ hlt) (lt_irrefl _)

theorem btreeOfList_ne_nil (l : List Error) (h : l ≠ []) : btreeOfList l ≠ [] := by
  obtain ⟨a, ha⟩ := List.exists_mem_of_ne_nil l h
  exact List.ne_nil_of_mem ((mem_btreeOfList a l).mpr ha)

/-- `TokenPoint::location` (src/src/lib.rs lines 82-84): the pair the
derived lexicographic ordering on points compares. -/
def ptKey (pt : Point) : Nat × Option Nat := (pt.offset, pt.subOffset)

/-- Rust's derived `Option<u8>` order (`None` first) as a Boolean. -/
def subOffLe : Option Nat → Option Nat → Bool
  | none, _ => true
  | some _, none => false
  | some a, some b => a ≤ b

/-- The lexicographic order on point keys. -/
def keyLe (a b : Nat × Option Nat) : Bool :=
  a.1 < b.1 || (a.1 = b.1 && subOffLe a.2 b.2)

theorem keyLe_total (a b : Nat × Option Nat) :
    keyLe a b = true ∨ keyLe b a = true := by
  obtain ⟨a1, a2⟩ := a
  obtain ⟨b1, b2⟩ := b
  simp only [keyLe, Bool.or_eq_true, Bool.and_eq_true, decide_eq_true_eq]
  rcases Nat.lt_trichotomy a1 b1 with h | h | h
  · left; left; exact h
  · subst h
    rcases a2 with _ | x <;> rcases b2 with _ | y
    · left; right; exact ⟨rfl, rfl⟩
    · left; right; exact ⟨rfl, rfl⟩
    · right; right; exact ⟨rfl, rfl⟩
    · rcases Nat.le_total x y with hxy | hxy
      · left; right; exact ⟨rfl, by simp [subOffLe, hxy]⟩
      · right; right; exact ⟨rfl, by simp [subOffLe, hxy]⟩
  · right; left; exact h

theorem keyLe_trans (a b c : Nat × Option Nat) (hab : keyLe a b = true)
    (hbc : keyLe b c = true) : keyLe a c = true := by
  obtain ⟨a1, a2⟩ := a
  obtain ⟨b1, b2⟩ := b
  obtain ⟨c1, c2⟩ := c
  simp only [keyLe, Bool.or_eq_true, Bool.and_eq_true, decide_eq_true_eq] at *
  rcases hab with h | ⟨h, h2⟩ <;> rcases hbc with h3 | ⟨h3, h4⟩
  · left; omega
  · left; omega
  · left; omega
  · subst h; subst h3
    right
    refine ⟨rfl, ?_⟩
    rcases a2 with _ | x <;> rcases b2 with _ | y <;> rcases c2 with _ | z <;>
      simp [subOffLe] at * <;> omega

/-- Modelled from the spec: the lexicographically-greatest failure
point among the recoverable failures the master recorded (peresil's
`ParseMaster::finish`; spec sections 4.E and 7: "the set of
expectations recorded at the lexicographically-greatest point
reached"). -/
def furthestPt : List (Point × Error) → Option Point
  | [] => none
  | pe :: rest =>
    match furthestPt rest with
    | none => some pe.1
    | some best => if keyLe (ptKey best) (ptKey pe.1) then some pe.1 else some best

/-- Modelled from the spec: the expectation codes recorded at a given
failure point (points compare by their key). -/
def errorsAt (fails : List (Point × Error)) (p : Point) : List Error :=
  (fails.filter fun pe => ptKey pe.1 = ptKey p).map fun pe => pe.2

theorem furthestPt_eq_none :
    ∀ fails : List (Point × Error), furthestPt fails = none → fails = []
  | [], _ => rfl
  | pe :: rest, h => by
    rw [furthestPt] at h
    rcases hr : furthestPt rest with _ | best
    · rw [hr] at h
      exact Option.noConfusion h
    · rw [hr] at h
      dsimp only at h
      split_ifs at h


theorem furthestPt_mem :
    ∀ (fails : List (Point × Error)) (p : Point), furthestPt fails = some p →
      ∃ pe, pe ∈ fails ∧ pe.1 = p
  | [], p, h => by simp [furthestPt] at h
  | pe :: rest, p, h => by
    rw [furthestPt] at h
    rcases hr : furthestPt rest with _ | best
    · rw [hr] at h
      simp only [Option.some.injEq] at h
      exact ⟨pe, by simp, h⟩
    · rw [hr] at h
      dsimp only at h
      split_ifs at h with hk
      · simp only [Option.some.injEq] at h
        exact ⟨pe, by simp, h⟩
      · simp only [Option.some.injEq] at h
        obtain ⟨q, hq, hq1⟩ := furthestPt_mem rest best hr
        exact ⟨q, by simp [hq], h ▸ hq1⟩

theorem furthestPt_ge :
    ∀ (fails : List (Point × Error)) (p : Point), furthestPt fails = some p →
      ∀ pe, pe ∈ fails → keyLe (ptKey pe.1) (ptKey p) = true
  | [], p, h => by simp [furthestPt] at h
  | pe :: rest, p, h => by
    rw [furthestPt] at h
    rcases hr : furthestPt rest with _ | best
    · rw [hr] at h
      simp only [Option.some.injEq] at h
      subst h
      intro q hq
      rcases List.mem_cons.mp hq with rfl | hq
      · rcases keyLe_total (ptKey q.1) (ptKey q.1) with hk | hk <;> exact hk
      · rw [furthestPt_eq_none rest hr] at hq
        exact absurd hq (List.not_mem_nil q)
    · rw [hr] at h
      dsimp only at h
      have hge := furthestPt_ge rest best hr
      split_ifs at h with hk
      · simp only [Option.some.injEq] at h
        subst h
        intro q hq
        rcases List.mem_cons.mp hq with rfl | hq
        · rcases keyLe_total (ptKey q.1) (ptKey q.1) with h2 | h2 <;> exact h2
        · exact keyLe_trans _ _ _ (hge q hq) hk
      · simp only [Option.some.injEq] at h
        subst h
        intro q hq
        rcases List.mem_cons.mp hq with rfl | hq
        · rcases keyLe_total (ptKey best) (ptKey q.1) with h2 | h2
          · exact absurd h2 hk
          · exact h2
        · exact hge q hq

/-- `pub struct ParserErrorDetail` (src/src/lib.rs lines 322-326):
a byte location and the sorted set of expectation codes. -/
structure ParserErrorDetail where
  location : Option Nat
  errors : List Error
deriving DecidableEq, Repr

/-- The construction of the surfaced parser error in `parse_rust_file`
(src/src/lib.rs lines 402-407): the location is the start byte of the
token at the failure point's offset (`none` models the out-of-bounds
indexing panic), and the errors are collected into the sorted set. -/
def mkParserErrorDetail (tokens : List Token) (pt : Point) (errs : List Error) :
    ParserErrorDetail :=
  { location := (tokens.get? pt.offset).map fun t => t.extent.1
    errors := btreeOfList errs }

/-- The status of an item parse after `pm.finish` merged the master's
recorded errors (peresil's `ParseMaster::finish`; on failure the error
collection is iterated into the `BTreeSet` at src/src/lib.rs line
405). -/
inductive FinStatus (T : Type) where
  | success (v : T)
  | failure (errs : List Error)
deriving DecidableEq, Repr

/-- A finished item-parse result: a point and a status. -/
structure FinProgress (T : Type) where
  point : Point
  status : FinStatus T
deriving DecidableEq, Repr

/-- The loop's end-of-input test,
`pt.s.first().map(Token::is_end_of_file).unwrap_or(true)`
(src/src/lib.rs line 392). -/
def atEof (pt : Point) : Bool :=
  (pt.s.head?.map Token.isEndOfFile).getD true

/-- The possible outcomes of the top-level loop: a parsed item list, a
parser error, the `panic!("Unable to make progress")` at
src/src/lib.rs line 411, or fuel exhaustion (an artifact of the
embedding; the Rust loop is bounded by the token count). -/
inductive FileResult (T : Type) where
  | ok (items : List T)
  | err (detail : ParserErrorDetail)
  | panicked
  | outOfFuel
deriving DecidableEq, Repr

/-- The top-level loop of `parse_rust_file` (src/src/lib.rs lines
391-414), generic over the item parser (`attributed(item)` composed
with `pm.finish` — the grammar spans the missing `expression` module):
stop at end-of-file; on a successful item parse require strict
progress, aborting with `panicked` otherwise; on failure surface the
parser error built from the failure point and the merged error set. -/
def parseItemsLoop {T : Type} (tokens : List Token) (parse : Point → FinProgress T) :
    Nat → Point → FileResult T
  | 0, _ => FileResult.outOfFuel
  | fuel + 1, pt =>
    if atEof pt then FileResult.ok []
    else
      let r := parse pt
      match r.status with
      | FinStatus.failure e => FileResult.err (mkParserErrorDetail tokens r.point e)
      | FinStatus.success v =>
        if r.point.offset ≤ pt.offset then FileResult.panicked
        else
          match parseItemsLoop tokens parse fuel r.point with
          | FileResult.ok items => FileResult.ok (v :: items)
          | other => other

/-- `parse_rust_file`'s driver from a fresh point over the
(whitespace-partitioned) token vector. -/
def parseRustFileLoop {T : Type} (tokens : List Token)
    (parse : Point → FinProgress T) (fuel : Nat) : FileResult T :=
  parseItemsLoop tokens parse fuel (Point.new tokens)

/-- A point that agrees with the token vector: its slice is the tail
of the tokens from its offset, the invariant `TokenPoint::new` and
`advance_by` maintain. -/
def PointWF (tokens : List Token) (pt : Point) : Prop :=
  pt.s = tokens.drop pt.offset

theorem parseItemsLoop_ok_length {T : Type} (tokens : List Token)
    (parse : Point → FinProgress T)
    (hpres : ∀ q nx w, PointWF tokens q →
      parse q = ⟨nx, FinStatus.success w⟩ → PointWF tokens nx) :
    ∀ (fuel : Nat) (pt : Point) (its : List T), PointWF tokens pt →
      parseItemsLoop tokens parse fuel pt = FileResult.ok its →
      its.length ≤ tokens.length - pt.offset := by
  intro fuel
  induction fuel with
  | zero =>
    intro pt its hwf h
    exact absurd h (by simp [parseItemsLoop])
  | succ fuel ih =>
    intro pt its hwf h
    by_cases heof : atEof pt = true
    · have hits : its = [] := by
        simp only [parseItemsLoop, heof, if_true] at h
        exact (FileResult.ok.inj h).symm
      subst hits
      simp
    · rw [Bool.not_eq_true] at heof
      have hne : pt.s ≠ [] := by
        intro hnil
        simp [atEof, hnil] at heof
      have hofflt : pt.offset < tokens.length := by
        by_contra hge
        exact hne (hwf.trans (List.drop_eq_nil_iff.mpr (by omega)))
      rcases hp : parse pt with ⟨nx, st⟩
      cases st with
      | failure errs =>
        simp [parseItemsLoop, heof, hp] at h
      | success w =>
        by_cases hle : nx.offset ≤ pt.offset
        · simp [parseItemsLoop, heof, hp, hle] at h
        · have hwf' := hpres pt nx w hwf hp
          rcases hrec : parseItemsLoop tokens parse fuel nx with items | d | _ | _
          · simp only [parseItemsLoop, heof, Bool.false_eq_true, if_false, hp,
              hle, hrec] at h
            have hits : its = w :: items := (FileResult.ok.inj h).symm
            subst hits
            have hlen := ih nx items hwf' hrec
            simp only [List.length_cons]
            omega
          · simp [parseItemsLoop, heof, hp, hle, hrec] at h
          · simp [parseItemsLoop, heof, hp, hle, hrec] at h
          · simp [parseItemsLoop, heof, hp, hle, hrec] at h

/-- C4: in `parse_rust_file`'s loop, every returned item list reflects
strict progress — if the loop returns normally with `its` items, at
least one token was consumed per item (`its.length` is bounded by the
remaining tokens) — and a successful item parse that does not advance
the point aborts with the fatal `Unable to make progress` panic
instead of returning a normal result. -/
theorem c4_progress_guarantee {T : Type} (tokens : List Token)
    (parse : Point → FinProgress T) (fuel : Nat) (pt : Point) (its : List T)
    (next : Point) (v : T)
    (hpres : ∀ q nx w, PointWF tokens q →
      parse q = ⟨nx, FinStatus.success w⟩ → PointWF tokens nx)
    (hwf : PointWF tokens pt) :
    (parseItemsLoop tokens parse fuel pt = FileResult.ok its →
      its.length ≤ tokens.length - pt.offset) ∧
    (atEof pt = false → parse pt = ⟨next, FinStatus.success v⟩ →
      next.offset ≤ pt.offset →
      parseItemsLoop tokens parse (fuel + 1) pt = FileResult.panicked) := by
  constructor
  · exact parseItemsLoop_ok_length tokens parse hpres fuel pt its hwf
  · intro heof hp hle
    simp [parseItemsLoop, heof, hp, hle]

/-- C6: the parser error surfaced by `parse_rust_file` carries the
expectation codes recorded at the lexicographically-greatest failure
point, as a non-empty, strictly sorted (by the declaration order the
derived `Ord` uses), duplicate-free set, and its location is the start
byte of the token at that point's offset. -/
theorem c6_error_detail (tokens : List Token) (fails : List (Point × Error))
    (p : Point) (tok : Token)
    (hf : furthestPt fails = some p)
    (htok : tokens[p.offset]? = some tok) :
    (mkParserErrorDetail tokens p (errorsAt fails p)).location =
      some tok.extent.1 ∧
    (mkParserErrorDetail tokens p (errorsAt fails p)).errors ≠ [] ∧
    List.Pairwise (fun a b => errCode a < errCode b)
      (mkParserErrorDetail tokens p (errorsAt fails p)).errors ∧
    (mkParserErrorDetail tokens p (errorsAt fails p)).errors.Nodup ∧
    (∀ er, er ∈ (mkParserErrorDetail tokens p (errorsAt fails p)).errors ↔
      ∃ q, (q, er) ∈ fails ∧ ptKey q = ptKey p) ∧
    (∀ pe ∈ fails, keyLe (ptKey pe.1) (ptKey p) = true) := by
  refine ⟨?_, ?_, ?_, ?_, ?_, furthestPt_ge fails p hf⟩
  · simp [mkParserErrorDetail, htok]
  · have hmem : ∃ pe, pe ∈ fails ∧ pe.1 = p := furthestPt_mem fails p hf
    obtain ⟨pe, hpe, hpe1⟩ := hmem
    apply btreeOfList_ne_nil
    apply List.ne_nil_of_mem (a := pe.2)
    rw [errorsAt]
    apply List.mem_map_of_mem
    apply List.mem_filter.mpr
    exact ⟨hpe, by simp [hpe1]⟩
  · exact pairwise_btreeOfList _
  · exact nodup_btreeOfList _
  · intro er
    rw [mkParserErrorDetail]
    simp only [mem_btreeOfList, errorsAt, List.mem_map, List.mem_filter,
      decide_eq_true_eq]
    constructor
    · rintro ⟨⟨q, e⟩, ⟨hqf, hqk⟩, rfl⟩
      exact ⟨q, hqf, hqk⟩
    · rintro ⟨q, hqf, hqk⟩
      exact ⟨(q, er), ⟨hqf, hqk⟩, rfl⟩

/-- C8: parsing is deterministic.  The embedded pipeline is a pure
function of the token vector (itself a pure function of the input
bytes); there is no global or shared mutable state, so two runs on
equal inputs produce identical results — equal item lists on success
and equal error details on failure. -/
theorem c8_deterministic {T : Type} (parse : Point → FinProgress T) (fuel : Nat)
    (tokens1 tokens2 : List Token) (h : tokens1 = tokens2) :
    parseRustFileLoop tokens1 parse fuel = parseRustFileLoop tokens2 parse fuel := by
  rw [h]

/-- Concrete check of the amended split-extent property on `>>` with
extent `(0, 2)` at position 0. -/
theorem c2_split_extent_amended_witness :
    (Token.mk TokenKind.rightAngle (0, 1)).extent.2 =
      (Token.mk TokenKind.rightAngle (1, 2)).extent.1 ∧
    (Token.mk TokenKind.rightAngle (0, 1)).extent.1 <
      (Token.mk TokenKind.rightAngle (0, 1)).extent.2 ∧
    (Token.mk TokenKind.rightAngle (1, 2)).extent.1 <
      (Token.mk TokenKind.rightAngle (1, 2)).extent.2 ∧
    (Token.mk TokenKind.rightAngle (0, 1)).extent.1 =
      (Token.mk TokenKind.doubleRightAngle (0, 2)).extent.1 + 0 ∧
    (Token.mk TokenKind.rightAngle (1, 2)).extent.2 =
      (Token.mk TokenKind.doubleRightAngle (0, 2)).extent.2 ∧
    inExtent 1 ((Token.mk TokenKind.doubleRightAngle (0, 2)).extent.1 + 0,
        (Token.mk TokenKind.doubleRightAngle (0, 2)).extent.2) =
      (inExtent 1 (Token.mk TokenKind.rightAngle (0, 1)).extent ||
        inExtent 1 (Token.mk TokenKind.rightAngle (1, 2)).extent) :=
  c2_split_extent_amended (Token.mk TokenKind.doubleRightAngle (0, 2)) 0
    (Token.mk TokenKind.rightAngle (0, 1)) (Token.mk TokenKind.rightAngle (1, 2)) 1
    (by decide) (by decide)

/-- Concrete check of the amended matcher property: requesting `>` at
a whole-token point on `>>` succeeds by splitting at position 0,
moving the point to sub-offset 0 of the same token. -/
theorem c3_token_split_amended_witness :
    token Token.into_right_angle Error.ExpectedRightAngle
        ⟨0, none, [⟨TokenKind.doubleRightAngle, (0, 2)⟩]⟩ =
      some (Progress.success ⟨0, some 0, [⟨TokenKind.doubleRightAngle, (0, 2)⟩]⟩
        (0, 1)) :=
  (c3_token_split_amended Token.into_right_angle Error.ExpectedRightAngle
      ⟨0, none, [⟨TokenKind.doubleRightAngle, (0, 2)⟩]⟩
      ⟨TokenKind.doubleRightAngle, (0, 2)⟩ ⟨TokenKind.doubleRightAngle, (0, 2)⟩
      ⟨TokenKind.rightAngle, (0, 1)⟩ ⟨TokenKind.rightAngle, (1, 2)⟩ (0, 1)
      rfl rfl rfl).1 rfl rfl

/-- Concrete check of the progress guarantee on a two-token vector
with an item parser that always jumps to the end. -/
theorem c4_progress_guarantee_witness :
    (parseItemsLoop [⟨TokenKind.ident, (0, 1)⟩, ⟨TokenKind.endOfFile, (1, 1)⟩]
        (fun _ => ⟨⟨2, none, []⟩, FinStatus.success ()⟩) 2
        (Point.new [⟨TokenKind.ident, (0, 1)⟩, ⟨TokenKind.endOfFile, (1, 1)⟩]) =
        FileResult.ok [()] →
      ([()] : List Unit).length ≤
        ([⟨TokenKind.ident, (0, 1)⟩, ⟨TokenKind.endOfFile, (1, 1)⟩] :
          List Token).length -
          (Point.new [⟨TokenKind.ident, (0, 1)⟩,
            ⟨TokenKind.endOfFile, (1, 1)⟩]).offset) ∧
    (atEof (Point.new [⟨TokenKind.ident, (0, 1)⟩, ⟨TokenKind.endOfFile, (1, 1)⟩])
        = false →
      (fun _ => ⟨⟨2, none, []⟩, FinStatus.success ()⟩ :
          Point → FinProgress Unit)
        (Point.new [⟨TokenKind.ident, (0, 1)⟩, ⟨TokenKind.endOfFile, (1, 1)⟩]) =
        ⟨⟨2, none, []⟩, FinStatus.success ()⟩ →
      (⟨2, none, []⟩ : Point).offset ≤
        (Point.new [⟨TokenKind.ident, (0, 1)⟩,
          ⟨TokenKind.endOfFile, (1, 1)⟩]).offset →
      parseItemsLoop [⟨TokenKind.ident, (0, 1)⟩, ⟨TokenKind.endOfFile, (1, 1)⟩]
        (fun _ => ⟨⟨2, none, []⟩, FinStatus.success ()⟩) 3
        (Point.new [⟨TokenKind.ident, (0, 1)⟩, ⟨TokenKind.endOfFile, (1, 1)⟩]) =
        FileResult.panicked) :=
  c4_progress_guarantee [⟨TokenKind.ident, (0, 1)⟩, ⟨TokenKind.endOfFile, (1, 1)⟩]
    (fun _ => ⟨⟨2, none, []⟩, FinStatus.success ()⟩) 2
    (Point.new [⟨TokenKind.ident, (0, 1)⟩, ⟨TokenKind.endOfFile, (1, 1)⟩])
    [()] ⟨2, none, []⟩ ()
    (fun q nx w _ hp => by
      injection hp with h1 h2
      exact h1 ▸ (rfl :
        PointWF [⟨TokenKind.ident, (0, 1)⟩, ⟨TokenKind.endOfFile, (1, 1)⟩]
          ⟨2, none, []⟩))
    rfl

/-- Concrete check of the surfaced error detail: two recorded
failures, the furthest at token index 1. -/
theorem c6_error_detail_witness :
    (mkParserErrorDetail [⟨TokenKind.kwFn, (0, 2)⟩, ⟨TokenKind.ident, (3, 6)⟩]
        ⟨1, none, []⟩
        (errorsAt [(⟨0, none, []⟩, Error.ExpectedComma),
          (⟨1, none, []⟩, Error.ExpectedFn)] ⟨1, none, []⟩)).location =
      some (Token.mk TokenKind.ident (3, 6)).extent.1 ∧
    (mkParserErrorDetail [⟨TokenKind.kwFn, (0, 2)⟩, ⟨TokenKind.ident, (3, 6)⟩]
        ⟨1, none, []⟩
        (errorsAt [(⟨0, none, []⟩, Error.ExpectedComma),
          (⟨1, none, []⟩, Error.ExpectedFn)] ⟨1, none, []⟩)).errors ≠ [] ∧
    List.Pairwise (fun a b => errCode a < errCode b)
      (mkParserErrorDetail [⟨TokenKind.kwFn, (0, 2)⟩, ⟨TokenKind.ident, (3, 6)⟩]
        ⟨1, none, []⟩
        (errorsAt [(⟨0, none, []⟩, Error.ExpectedComma),
          (⟨1, none, []⟩, Error.ExpectedFn)] ⟨1, none, []⟩)).errors ∧
    (mkParserErrorDetail [⟨TokenKind.kwFn, (0, 2)⟩, ⟨TokenKind.ident, (3, 6)⟩]
        ⟨1, none, []⟩
        (errorsAt [(⟨0, none, []⟩, Error.ExpectedComma),
          (⟨1, none, []⟩, Error.ExpectedFn)] ⟨1, none, []⟩)).errors.Nodup ∧
    (∀ er, er ∈ (mkParserErrorDetail
        [⟨TokenKind.kwFn, (0, 2)⟩, ⟨TokenKind.ident, (3, 6)⟩] ⟨1, none, []⟩
        (errorsAt [(⟨0, none, []⟩, Error.ExpectedComma),
          (⟨1, none, []⟩, Error.ExpectedFn)] ⟨1, none, []⟩)).errors ↔
      ∃ q, (q, er) ∈ [((⟨0, none, []⟩ : Point), Error.ExpectedComma),
          (⟨1, none, []⟩, Error.ExpectedFn)] ∧
        ptKey q = ptKey ⟨1, none, []⟩) ∧
    (∀ pe ∈ [((⟨0, none, []⟩ : Point), Error.ExpectedComma),
        (⟨1, none, []⟩, Error.ExpectedFn)],
      keyLe (ptKey pe.1) (ptKey ⟨1, none, []⟩) = true) :=
  c6_error_detail [⟨TokenKind.kwFn, (0, 2)⟩, ⟨TokenKind.ident, (3, 6)⟩]
    [(⟨0, none, []⟩, Error.ExpectedComma), (⟨1, none, []⟩, Error.ExpectedFn)]
    ⟨1, none, []⟩ ⟨TokenKind.ident, (3, 6)⟩ (by decide) rfl

/-- Concrete check of `parse_nested_until` on `ident )` with
parenthesis open/close predicates: one token is consumed and the close
parenthesis is left in place. -/
theorem c7_parse_nested_until_witness :
    (parse_nested_until (fun t => t.kind = TokenKind.leftParen)
        (fun t => t.kind = TokenKind.rightParen)
        ⟨0, none, [⟨TokenKind.ident, (0, 3)⟩, ⟨TokenKind.rightParen, (3, 4)⟩,
          ⟨TokenKind.endOfFile, (4, 4)⟩]⟩ =
      (consumedSpan ⟨0, none, [⟨TokenKind.ident, (0, 3)⟩,
          ⟨TokenKind.rightParen, (3, 4)⟩, ⟨TokenKind.endOfFile, (4, 4)⟩]⟩
        (nestedSkip (fun t => t.kind = TokenKind.leftParen)
          (fun t => t.kind = TokenKind.rightParen)
          [⟨TokenKind.ident, (0, 3)⟩, ⟨TokenKind.rightParen, (3, 4)⟩,
            ⟨TokenKind.endOfFile, (4, 4)⟩] 0)).map fun e =>
        Progress.success
          (Point.advanceBy ⟨0, none, [⟨TokenKind.ident, (0, 3)⟩,
            ⟨TokenKind.rightParen, (3, 4)⟩, ⟨TokenKind.endOfFile, (4, 4)⟩]⟩
            (nestedSkip (fun t => t.kind = TokenKind.leftParen)
              (fun t => t.kind = TokenKind.rightParen)
              [⟨TokenKind.ident, (0, 3)⟩, ⟨TokenKind.rightParen, (3, 4)⟩,
                ⟨TokenKind.endOfFile, (4, 4)⟩] 0)) e) ∧
    (consumedSpan ⟨0, none, [⟨TokenKind.ident, (0, 3)⟩,
        ⟨TokenKind.rightParen, (3, 4)⟩, ⟨TokenKind.endOfFile, (4, 4)⟩]⟩
      (nestedSkip (fun t => t.kind = TokenKind.leftParen)
        (fun t => t.kind = TokenKind.rightParen)
        [⟨TokenKind.ident, (0, 3)⟩, ⟨TokenKind.rightParen, (3, 4)⟩,
          ⟨TokenKind.endOfFile, (4, 4)⟩] 0)).isSome = true ∧
    nestedSkip (fun t => t.kind = TokenKind.leftParen)
      (fun t => t.kind = TokenKind.rightParen)
      [⟨TokenKind.ident, (0, 3)⟩, ⟨TokenKind.rightParen, (3, 4)⟩,
        ⟨TokenKind.endOfFile, (4, 4)⟩] 0 ≤
      ([⟨TokenKind.ident, (0, 3)⟩, ⟨TokenKind.rightParen, (3, 4)⟩,
        ⟨TokenKind.endOfFile, (4, 4)⟩] : List Token).length ∧
    (∀ i, i < nestedSkip (fun t => t.kind = TokenKind.leftParen)
        (fun t => t.kind = TokenKind.rightParen)
        [⟨TokenKind.ident, (0, 3)⟩, ⟨TokenKind.rightParen, (3, 4)⟩,
          ⟨TokenKind.endOfFile, (4, 4)⟩] 0 →
      ∃ t, ([⟨TokenKind.ident, (0, 3)⟩, ⟨TokenKind.rightParen, (3, 4)⟩,
          ⟨TokenKind.endOfFile, (4, 4)⟩] : List Token).get? i = some t ∧
        nestedStops (fun t => t.kind = TokenKind.leftParen)
          (fun t => t.kind = TokenKind.rightParen)
          ((([⟨TokenKind.ident, (0, 3)⟩, ⟨TokenKind.rightParen, (3, 4)⟩,
            ⟨TokenKind.endOfFile, (4, 4)⟩] : List Token).take i).foldl
            (nestedStep (fun t => t.kind = TokenKind.leftParen)
              (fun t => t.kind = TokenKind.rightParen)) 0) t = false) ∧
    (nestedSkip (fun t => t.kind = TokenKind.leftParen)
        (fun t => t.kind = TokenKind.rightParen)
        [⟨TokenKind.ident, (0, 3)⟩, ⟨TokenKind.rightParen, (3, 4)⟩,
          ⟨TokenKind.endOfFile, (4, 4)⟩] 0 <
        ([⟨TokenKind.ident, (0, 3)⟩, ⟨TokenKind.rightParen, (3, 4)⟩,
          ⟨TokenKind.endOfFile, (4, 4)⟩] : List Token).length →
      ∃ t, ([⟨TokenKind.ident, (0, 3)⟩, ⟨TokenKind.rightParen, (3, 4)⟩,
          ⟨TokenKind.endOfFile, (4, 4)⟩] : List Token).get?
            (nestedSkip (fun t => t.kind = TokenKind.leftParen)
              (fun t => t.kind = TokenKind.rightParen)
              [⟨TokenKind.ident, (0, 3)⟩, ⟨TokenKind.rightParen, (3, 4)⟩,
                ⟨TokenKind.endOfFile, (4, 4)⟩] 0) = some t ∧
        nestedStops (fun t => t.kind = TokenKind.leftParen)
          (fun t => t.kind = TokenKind.rightParen)
          ((([⟨TokenKind.ident, (0, 3)⟩, ⟨TokenKind.rightParen, (3, 4)⟩,
            ⟨TokenKind.endOfFile, (4, 4)⟩] : List Token).take
              (nestedSkip (fun t => t.kind = TokenKind.leftParen)
                (fun t => t.kind = TokenKind.rightParen)
                [⟨TokenKind.ident, (0, 3)⟩, ⟨TokenKind.rightParen, (3, 4)⟩,
                  ⟨TokenKind.endOfFile, (4, 4)⟩] 0)).foldl
            (nestedStep (fun t => t.kind = TokenKind.leftParen)
              (fun t => t.kind = TokenKind.rightParen)) 0) t = true) :=
  c7_parse_nested_until (fun t => t.kind = TokenKind.leftParen)
    (fun t => t.kind = TokenKind.rightParen)
    ⟨0, none, [⟨TokenKind.ident, (0, 3)⟩, ⟨TokenKind.rightParen, (3, 4)⟩,
      ⟨TokenKind.endOfFile, (4, 4)⟩]⟩ (by decide) rfl

/-- Concrete check of determinism on a tiny token vector. -/
theorem c8_deterministic_witness :
    parseRustFileLoop [⟨TokenKind.endOfFile, (0, 0)⟩]
      (fun pt => (⟨pt, FinStatus.failure [Error.ExpectedIdent]⟩ :
        FinProgress Unit)) 1 =
    parseRustFileLoop [⟨TokenKind.endOfFile, (0, 0)⟩]
      (fun pt => (⟨pt, FinStatus.failure [Error.ExpectedIdent]⟩ :
        FinProgress Unit)) 1 :=
  c8_deterministic
    (fun pt => (⟨pt, FinStatus.failure [Error.ExpectedIdent]⟩ : FinProgress Unit))
    1 [⟨TokenKind.endOfFile, (0, 0)⟩] [⟨TokenKind.endOfFile, (0, 0)⟩] rfl

/-- Concrete check of point validity: a fresh whole-token point on an
identifier token stays valid through the matcher, which does not
panic. -/
theorem c10_resume_panic_unreachable_witness :
    validPointB (Point.new []) = true ∧
    validPointB (Point.advanceBy ⟨0, none, [⟨TokenKind.ident, (0, 1)⟩]⟩ 0) = true ∧
    token Token.into_right_angle Error.ExpectedRightAngle
        ⟨0, none, [⟨TokenKind.ident, (0, 1)⟩]⟩ ≠ none ∧
    (token Token.into_right_angle Error.ExpectedRightAngle
        ⟨0, none, [⟨TokenKind.ident, (0, 1)⟩]⟩ =
        some (Progress.failure ⟨0, none, [⟨TokenKind.ident, (0, 1)⟩]⟩
          Error.ExpectedRightAngle) →
      validPointB ((Progress.failure ⟨0, none, [⟨TokenKind.ident, (0, 1)⟩]⟩
        Error.ExpectedRightAngle : Progress Extent)).point = true) :=
  c10_resume_panic_unreachable Token.into_right_angle Error.ExpectedRightAngle
    ⟨0, none, [⟨TokenKind.ident, (0, 1)⟩]⟩ [] 0
    (Progress.failure ⟨0, none, [⟨TokenKind.ident, (0, 1)⟩]⟩
      Error.ExpectedRightAngle) rfl

end FuzzyPickles
